import Mathlib

/-!
Shallow embedding of `src/src/App.jsx`, the single source file of the
portfolio application, together with proofs about its two stateful
controllers (the typewriter animation in `Hero` and the scroll-reveal
hook `useReveal`), the contact-form submit handler and the theme toggle.

Conventions used throughout:

* JS strings that the typewriter slices character by character are
  modelled as `List Char`; the JS expression `s.slice(0, k)` is
  `List.take k`.
* Each stateful React component is modelled by an explicit state type
  and a step function fired by the events the host delivers (timer
  callbacks, intersection-observer callbacks, teardown).
* Millisecond delays are natural numbers.
-/

set_option autoImplicit false

namespace Portfolio

/-! ### Theme: `useTheme` (lines 11-14), colour tokens `T` (lines 50-73),
palette selection in `App` (line 693) and `Nav` (line 79) -/

/-- One palette of colour tokens, as in the objects `T.dark` / `T.light`. -/
structure Palette where
  bg : String
  surface : String
  card : String
  border : String
  accent : String
  accentSoft : String
  text : String
  muted : String
  grad : String
deriving DecidableEq

/-- The pair of palettes held by the constant `T`. -/
structure ColorTokens where
  dark : Palette
  light : Palette
deriving DecidableEq

/-- Colour tokens `T` (source lines 50-73). -/
def T : ColorTokens where
  dark :=
    { bg := "#0a0a0f"
    , surface := "#12121a"
    , card := "#17172200"
    , border := "#2a2a3a"
    , accent := "#f59e0b"
    , accentSoft := "#f59e0b22"
    , text := "#e8e8f0"
    , muted := "#8888aa"
    , grad := "linear-gradient(135deg,#f59e0b22 0%,transparent 60%)" }
  light :=
    { bg := "#f5f4ef"
    , surface := "#ffffff"
    , card := "#ffffff"
    , border := "#e0ddd5"
    , accent := "#c2770a"
    , accentSoft := "#c2770a18"
    , text := "#1a1a2e"
    , muted := "#6b6b80"
    , grad := "linear-gradient(135deg,#c2770a18 0%,transparent 60%)" }

/-- Initial theme state: `useState(true)` (line 12). -/
def initialDark : Bool := true

/-- Theme toggle: `setDark((d) => !d)` (line 13). -/
def toggle (d : Bool) : Bool := !d

/-- Palette selection `const c = dark ? T.dark : T.light`
(line 693 in `App`, identically at line 79 in `Nav`). -/
def paletteOf (dark : Bool) : Palette := if dark then T.dark else T.light

/-! ### Scroll reveal: `useReveal` (lines 17-29) and `Reveal` (lines 32-47) -/

/-- State of one `useReveal` instance: the `visible` flag from
`useState(false)` and whether the `IntersectionObserver` is still
observing (it is disconnected either by the callback or by the effect
cleanup). -/
structure RevealState where
  visible : Bool
  observing : Bool
deriving DecidableEq

/-- State right after mount: `visible = false`, observer attached. -/
def initReveal : RevealState := { visible := false, observing := true }

/-- Events delivered by the host to a `useReveal` instance: an
intersection-observer callback carrying `e.isIntersecting`, or the
effect cleanup at unmount. -/
inductive REvent where
  | intersect (isIntersecting : Bool)
  | teardown
deriving DecidableEq

/-- Model of `obs.disconnect()` (lines 22 and 26). -/
def disconnect (s : RevealState) : RevealState :=
  { visible := s.visible, observing := false }

/-- One event step of `useReveal`.  The observer callback (line 22) is
`([e]) => { if (e.isIntersecting) { setVisible(true); obs.disconnect(); } }`
and only fires while the observer is observing; the cleanup (line 26)
is `() => obs.disconnect()`. -/
def stepReveal (s : RevealState) : REvent → RevealState
  | REvent.intersect b =>
      if s.observing = true ∧ b = true then { visible := true, observing := false } else s
  | REvent.teardown => disconnect s

/-- Run a `useReveal` instance from a given state over a list of events. -/
def runRevealFrom (s : RevealState) : List REvent → RevealState
  | [] => s
  | e :: es => runRevealFrom (stepReveal s e) es

/-- Run a `useReveal` instance from its mount state. -/
def runReveal (es : List REvent) : RevealState := runRevealFrom initReveal es

/-- Whether an event is an intersection callback with `isIntersecting` set
(i.e. the observed visible fraction reached the threshold). -/
def hit : REvent → Bool
  | REvent.intersect b => b
  | REvent.teardown => false

/-- Number of changes of the `visible` flag along an event list. -/
def flipCount (s : RevealState) : List REvent → Nat
  | [] => 0
  | e :: es =>
      (if (stepReveal s e).visible = s.visible then 0 else 1) + flipCount (stepReveal s e) es

/-- Observer threshold `{ threshold: 0.12 }` (line 23). -/
def revealThreshold : ℚ := 0.12

/-- Default of the `delay` prop of `Reveal`: `delay = 0` (line 32). -/
def revealDelayDefault : Nat := 0

/-- Inline style computed by `Reveal` (lines 38-42). -/
structure RevealStyle where
  opacity : Nat
  transform : String
  transition : String
deriving DecidableEq

/-- The style object of `Reveal` as a function of the `visible` flag and
the caller-supplied `delay` (in milliseconds):
`opacity: visible ? 1 : 0`,
`transform: visible ? "translateY(0)" : "translateY(32px)"`,
`transition: opacity 0.7s ease {delay}ms, transform 0.7s ease {delay}ms`. -/
def revealStyle (visible : Bool) (delay : Nat) : RevealStyle :=
  { opacity := if visible then 1 else 0
  , transform := if visible then "translateY(0)" else "translateY(32px)"
  , transition :=
      "opacity 0.7s ease " ++ toString delay ++ "ms, transform 0.7s ease " ++ toString delay ++ "ms" }

/-- CSS seconds to milliseconds. -/
def cssSecondsToMs (s : ℚ) : ℚ := s * 1000

/-- Duration of the reveal transition: the `0.7s` in the transition
string of line 41, in milliseconds. -/
def revealDurationMs : ℚ := cssSecondsToMs 0.7

/-! ### Typewriter: `Hero` (lines 152-176)

The `useEffect` at lines 159-176 schedules one outer
`setTimeout(..., deleting ? 60 : 100)` per run and cancels exactly that
handle in its cleanup.  The paused-full branch additionally schedules a
nested `setTimeout(() => setDeleting(true), 1800)` whose handle is
discarded.  At every instant at most one of these timers is live, so a
configuration is the component state plus which timer is pending. -/

/-- The typewriter's component state: `typed`, `roleIdx`, `charIdx`,
`deleting` (lines 153-157). -/
structure TWState where
  typed : List Char
  roleIdx : Nat
  charIdx : Nat
  deleting : Bool
deriving DecidableEq

/-- Which timer is pending: the effect's outer timeout (`main`, cleared
by the effect cleanup) or the nested 1800ms pause timeout (`pause`,
whose handle is dropped at line 166). -/
inductive Pending where
  | main
  | pause
deriving DecidableEq

/-- A runtime configuration of the typewriter. -/
structure Config where
  st : TWState
  pending : Pending
deriving DecidableEq

/-- The fixed role list (line 154). -/
def roles : List (List Char) :=
  [ "Business Analyst".toList, "Data Analyst".toList, "Analytics Consultant".toList ]

/-- Mount state `("", 0, 0, false)` with the first effect-run timer pending. -/
def initTW : Config :=
  { st := { typed := [], roleIdx := 0, charIdx := 0, deleting := false }
  , pending := Pending.main }

/-- Delay in milliseconds until the pending timer fires:
`deleting ? 60 : 100` for the outer timeout (line 174), 1800 for the
nested pause timeout (line 166). -/
def delayOf (c : Config) : Nat :=
  match c.pending with
  | Pending.pause => 1800
  | Pending.main => if c.st.deleting = true then 60 else 100

/-- Firing the pending timer (the body of the `useEffect`, lines 160-174).
The `main` callback branches exactly as lines 162-173; the `pause`
callback is `() => setDeleting(true)` (line 166).  A new `main` timer is
pending afterwards whenever a dependency of the effect changed (which is
every branch except the paused-full one, where the nested pause timer
becomes the only live timer). -/
def fire (rs : List (List Char)) (c : Config) : Config :=
  match c.pending with
  | Pending.pause => { st := { c.st with deleting := true }, pending := Pending.main }
  | Pending.main =>
      if c.st.deleting = false ∧ c.st.charIdx < (rs.getD c.st.roleIdx []).length then
        { st := { typed := (rs.getD c.st.roleIdx []).take (c.st.charIdx + 1)
                , roleIdx := c.st.roleIdx
                , charIdx := c.st.charIdx + 1, deleting := c.st.deleting }
        , pending := Pending.main }
      else if c.st.deleting = false ∧ c.st.charIdx = (rs.getD c.st.roleIdx []).length then
        { st := c.st, pending := Pending.pause }
      else if c.st.deleting = true ∧ 0 < c.st.charIdx then
        { st := { typed := (rs.getD c.st.roleIdx []).take (c.st.charIdx - 1)
                , roleIdx := c.st.roleIdx
                , charIdx := c.st.charIdx - 1, deleting := c.st.deleting }
        , pending := Pending.main }
      else
        { st := { typed := c.st.typed, roleIdx := (c.st.roleIdx + 1) % rs.length
                , charIdx := c.st.charIdx, deleting := false }
        , pending := Pending.main }

/-- Fire the pending timer `n` times. -/
def fireN (rs : List (List Char)) : Nat → Config → Config
  | 0, c => c
  | n + 1, c => fireN rs n (fire rs c)

/-- Total simulated milliseconds elapsed over the next `n` timer firings. -/
def elapsedN (rs : List (List Char)) : Nat → Config → Nat
  | 0, _ => 0
  | n + 1, c => delayOf c + elapsedN rs n (fire rs c)

/-- Which pending timers the effect cleanup `() => clearTimeout(timeout)`
(line 175) actually clears: only the outer handle it captured; the
nested pause timeout's handle was discarded. -/
def cleanupClears : Pending → Bool
  | Pending.main => true
  | Pending.pause => false

/-- The timer (if any) still live after the component is torn down. -/
def survivesTeardown (c : Config) : Option Pending :=
  if cleanupClears c.pending then none else some c.pending

/-- The typewriter invariant: `typed` is the length-`charIdx` slice of
the current role, and `charIdx` never exceeds the current role's length. -/
def Inv (rs : List (List Char)) (c : Config) : Prop :=
  c.st.typed = (rs.getD c.st.roleIdx []).take c.st.charIdx
  ∧ c.st.charIdx ≤ (rs.getD c.st.roleIdx []).length

/-! ### Contact form: `Contact` (lines 544-631) -/

/-- The controlled form fields `{ name: "", email: "", message: "" }`. -/
structure ContactForm where
  name : String
  email : String
  message : String
deriving DecidableEq

/-- The empty form the submit handler resets to (line 551). -/
def emptyForm : ContactForm := { name := "", email := "", message := "" }

/-- `Contact` component state: the form fields and the `sent` flag. -/
structure ContactState where
  form : ContactForm
  sent : Bool
deriving DecidableEq

/-- External effects a handler can request from the host. -/
inductive Effect where
  | preventDefault
  | timer (delayMs : Nat)
  | network (url : String)
deriving DecidableEq

/-- Whether an effect is a network request. -/
def isNetwork : Effect → Bool
  | Effect.network _ => true
  | _ => false

/-- `handleSubmit` (lines 548-553): `e.preventDefault(); setSent(true);
setForm({ name: "", email: "", message: "" });
setTimeout(() => setSent(false), 4000);`.  It ignores the previous
component state and performs no network request. -/
def handleSubmit (s : ContactState) : ContactState × List Effect :=
  ({ form := emptyForm, sent := true }, [Effect.preventDefault, Effect.timer 4000])

/-- The callback of the 4000ms timeout: `() => setSent(false)` (line 552). -/
def sentTimeout (s : ContactState) : ContactState := { s with sent := false }

/-- The application state surrounding the contact form (theme plus the
contact component's state); used to state the frame property of submit. -/
structure AppState where
  dark : Bool
  contact : ContactState
deriving DecidableEq

/-- `handleSubmit` lifted to the surrounding application state: only the
contact component's slice is touched. -/
def appHandleSubmit (a : AppState) : AppState × List Effect :=
  ({ dark := a.dark, contact := (handleSubmit a.contact).1 }, (handleSubmit a.contact).2)

/-! ## Helper lemmas for `useReveal` -/

/-- Once `visible` is true, no single event turns it off. -/
theorem stepReveal_mono (s : RevealState) (e : REvent) (h : s.visible = true) :
    (stepReveal s e).visible = true := by
  cases e with
  | intersect b =>
      simp only [stepReveal]
      split
      · rfl
      · exact h
  | teardown => exact h

/-- Running an appended event list is running the two lists in sequence. -/
theorem runRevealFrom_append (es fut : List REvent) :
    ∀ s, runRevealFrom s (es ++ fut) = runRevealFrom (runRevealFrom s es) fut := by
  induction es with
  | nil => intro s; rfl
  | cons e es ih => intro s; exact ih (stepReveal s e)

/-- Once `visible` is true, it stays true over any further events. -/
theorem visible_persists (es : List REvent) :
    ∀ s, s.visible = true → (runRevealFrom s es).visible = true := by
  induction es with
  | nil => intro s h; exact h
  | cons e es ih => intro s h; exact ih (stepReveal s e) (stepReveal_mono s e h)

/-- The implication `visible → not observing` is preserved by running events. -/
theorem visible_imp_not_observing (es : List REvent) :
    ∀ s, (s.visible = true → s.observing = false) →
      (runRevealFrom s es).visible = true → (runRevealFrom s es).observing = false := by
  induction es with
  | nil => intro s h; exact h
  | cons e es ih =>
      intro s h
      refine ih (stepReveal s e) ?_
      intro hv
      cases e with
      | intersect b =>
          simp only [stepReveal] at hv ⊢
          by_cases hc : s.observing = true ∧ b = true
          · rw [if_pos hc]
          · rw [if_neg hc] at hv ⊢
            exact h hv
      | teardown => rfl

/-- From a state with `visible = true` the flag never changes again. -/
theorem flipCount_zero_of_true (es : List REvent) :
    ∀ s, s.visible = true → flipCount s es = 0 := by
  induction es with
  | nil => intro s h; rfl
  | cons e es ih =>
      intro s h
      have h1 := stepReveal_mono s e h
      simp [flipCount, h, h1, ih (stepReveal s e) h1]

/-- The `visible` flag changes at most once over any event list. -/
theorem flipCount_le_one (es : List REvent) : ∀ s, flipCount s es ≤ 1 := by
  induction es with
  | nil => intro s; simp [flipCount]
  | cons e es ih =>
      intro s
      by_cases hc : (stepReveal s e).visible = s.visible
      · simpa [flipCount, hc] using ih (stepReveal s e)
      · have hs : (stepReveal s e).visible = true := by
          cases hsv : (stepReveal s e).visible with
          | true => rfl
          | false =>
              cases hv : s.visible with
              | false => exact absurd (hsv.trans hv.symm) hc
              | true => exact absurd (stepReveal_mono s e hv) (by simp [hsv])
        simp [flipCount, hc, flipCount_zero_of_true es _ hs]

/-- If no delivered intersection event carries `isIntersecting = true`,
an invisible state stays invisible. -/
theorem not_hit_keeps_invisible (es : List REvent) :
    ∀ s, (∀ e ∈ es, hit e = false) → s.visible = false →
      (runRevealFrom s es).visible = false := by
  induction es with
  | nil => intro s _ h; exact h
  | cons e es ih =>
      intro s hall h
      have he : hit e = false := hall e (List.mem_cons_self e es)
      have hstep : (stepReveal s e).visible = false := by
        cases e with
        | intersect b =>
            have hb : b = false := he
            subst hb
            simp [stepReveal, h]
        | teardown => exact h
      exact ih (stepReveal s e) (fun f hf => hall f (List.mem_cons_of_mem e hf)) hstep

/-! ## Claim theorems: reveal -/

/-- C2: the `visible` flag of `useReveal` starts false, transitions
false→true at most once, never true→false (it persists over any future
events), after the first transition observation has stopped, and if no
intersection callback ever reports the threshold reached it remains
false forever. -/
theorem useReveal_visible_one_way (es fut : List REvent) :
    initReveal.visible = false
    ∧ ((runReveal es).visible = true → (runReveal (es ++ fut)).visible = true)
    ∧ ((runReveal es).visible = true → (runReveal es).observing = false)
    ∧ flipCount initReveal es ≤ 1
    ∧ ((∀ e ∈ es, hit e = false) → (runReveal es).visible = false) := by
  refine ⟨rfl, ?_, ?_, flipCount_le_one es initReveal, ?_⟩
  · intro hv
    unfold runReveal at hv ⊢
    rw [runRevealFrom_append]
    exact visible_persists fut _ hv
  · exact visible_imp_not_observing es initReveal (fun h => Bool.noConfusion h)
  · intro hall
    exact not_hit_keeps_invisible es initReveal hall rfl

/-- Witness for C2: a hit flips the flag and it stays on afterwards; a
trace with no hit leaves it off. -/
theorem useReveal_visible_one_way_witness :
    ((runReveal [REvent.intersect true]).visible = true
      ∧ (runReveal ([REvent.intersect true] ++ [REvent.teardown])).visible = true)
    ∧ ((∀ e ∈ ([REvent.intersect false, REvent.teardown] : List REvent), hit e = false)
      ∧ (runReveal [REvent.intersect false, REvent.teardown]).visible = false) := by
  refine ⟨⟨by decide, ?_⟩, ⟨by decide, ?_⟩⟩
  · exact (useReveal_visible_one_way [REvent.intersect true] [REvent.teardown]).2.1 (by decide)
  · exact (useReveal_visible_one_way [REvent.intersect false, REvent.teardown] []).2.2.2.2
      (by decide)

/-- C8: the observer is released at teardown in every trace (in
particular when `visible` never became true), the teardown step is
exactly `obs.disconnect()`, and `disconnect` is idempotent — safe to
call again after the callback already disconnected or after a previous
teardown. -/
theorem useReveal_release_idempotent (es : List REvent) (s : RevealState) :
    (runReveal (es ++ [REvent.teardown])).observing = false
    ∧ stepReveal s REvent.teardown = disconnect s
    ∧ disconnect (disconnect s) = disconnect s
    ∧ (s.observing = true →
        disconnect (stepReveal s (REvent.intersect true)) = stepReveal s (REvent.intersect true))
    ∧ ((runReveal es).visible = false → (runReveal (es ++ [REvent.teardown])).visible = false) := by
  refine ⟨?_, rfl, rfl, ?_, ?_⟩
  · unfold runReveal
    rw [runRevealFrom_append]
    rfl
  · intro ho
    simp [stepReveal, disconnect, ho]
  · intro hv
    unfold runReveal at hv ⊢
    rw [runRevealFrom_append]
    simpa [runRevealFrom, stepReveal, disconnect] using hv

/-- Witness for C8: concrete teardown after no events, and a second
disconnect after the callback already disconnected. -/
theorem useReveal_release_idempotent_witness :
    (initReveal.observing = true
      ∧ disconnect (stepReveal initReveal (REvent.intersect true))
          = stepReveal initReveal (REvent.intersect true))
    ∧ ((runReveal ([] : List REvent)).visible = false
      ∧ (runReveal (([] : List REvent) ++ [REvent.teardown])).visible = false) := by
  refine ⟨⟨rfl, ?_⟩, ⟨rfl, ?_⟩⟩
  · exact (useReveal_release_idempotent [] initReveal).2.2.2.1 rfl
  · exact (useReveal_release_idempotent [] initReveal).2.2.2.2 rfl

/-- C7: the reveal contract — intersection threshold 0.12; while the
flag is false the wrapped region sits at opacity 0 and translateY(32px);
when it flips to true the region moves to opacity 1 and translateY(0);
the transition runs over 0.7s = 700ms delayed by the caller-supplied
per-sibling delay (default 0); and the flag changes at most once, so at
most one transition is driven. -/
theorem reveal_output_contract (d : Nat) (es : List REvent) :
    revealThreshold = 12 / 100
    ∧ revealStyle false d
        = { opacity := 0, transform := "translateY(32px)"
          , transition := "opacity 0.7s ease " ++ toString d
              ++ "ms, transform 0.7s ease " ++ toString d ++ "ms" }
    ∧ revealStyle true d
        = { opacity := 1, transform := "translateY(0)"
          , transition := "opacity 0.7s ease " ++ toString d
              ++ "ms, transform 0.7s ease " ++ toString d ++ "ms" }
    ∧ revealDurationMs = 700
    ∧ revealDelayDefault = 0
    ∧ flipCount initReveal es ≤ 1 := by
  refine ⟨?_, rfl, rfl, ?_, rfl, flipCount_le_one es initReveal⟩
  · norm_num [revealThreshold]
  · norm_num [revealDurationMs, cssSecondsToMs]

/-! ## Claim theorems: contact form and theme -/

/-- C9: submitting the contact form requests no network effect (only
`preventDefault` and a 4000ms timer), resets the three fields to empty
strings, sets `sent` to true, leaves the rest of the application state
(the theme flag) unchanged, and the timer callback flips only `sent`
back to false, leaving the form fields untouched. -/
theorem contact_submit_frame (a : AppState) (s : ContactState) :
    (handleSubmit a.contact).1.form = emptyForm
    ∧ (handleSubmit a.contact).1.sent = true
    ∧ (handleSubmit a.contact).2 = [Effect.preventDefault, Effect.timer 4000]
    ∧ ((handleSubmit a.contact).2.all fun e => ! isNetwork e) = true
    ∧ (appHandleSubmit a).1.dark = a.dark
    ∧ (sentTimeout (handleSubmit a.contact).1).sent = false
    ∧ (sentTimeout (handleSubmit a.contact).1).form = emptyForm
    ∧ (sentTimeout s).form = s.form
    ∧ (sentTimeout s).sent = false :=
  ⟨rfl, rfl, rfl, rfl, rfl, rfl, rfl, rfl, rfl⟩

/-- C10: the theme state is one boolean initialised to dark, the toggle
is an involution, and the palette handed to the components is `T.dark`
exactly when the flag is set and `T.light` otherwise. -/
theorem theme_toggle_involution (d : Bool) :
    initialDark = true
    ∧ toggle (toggle d) = d
    ∧ paletteOf true = T.dark
    ∧ paletteOf false = T.light := by
  refine ⟨rfl, ?_, rfl, rfl⟩
  cases d <;> rfl

/-! ## Helper lemmas for the typewriter -/

/-- Splitting a run of timer firings. -/
theorem fireN_shift (rs : List (List Char)) (a b : Nat) (c : Config) :
    fireN rs (b + a) c = fireN rs b (fireN rs a c) := by
  induction a generalizing c with
  | zero => rfl
  | succ a ih => exact ih (fire rs c)

/-- A single firing. -/
theorem fireN_one (rs : List (List Char)) (c : Config) : fireN rs 1 c = fire rs c := rfl

/-- Firing the nested pause timeout: `() => setDeleting(true)`. -/
theorem fire_pause_step (rs : List (List Char)) (t : List Char) (ri ci : Nat) (del : Bool) :
    fire rs { st := { typed := t, roleIdx := ri, charIdx := ci, deleting := del }
            , pending := Pending.pause }
      = { st := { typed := t, roleIdx := ri, charIdx := ci, deleting := true }
        , pending := Pending.main } := rfl

/-- Firing a main tick in the typing branch (line 162-164). -/
theorem fire_type (rs : List (List Char)) (t : List Char) (ri ci : Nat)
    (hlt : ci < (rs.getD ri []).length) :
    fire rs { st := { typed := t, roleIdx := ri, charIdx := ci, deleting := false }
            , pending := Pending.main }
      = { st := { typed := (rs.getD ri []).take (ci + 1), roleIdx := ri, charIdx := ci + 1
                , deleting := false }
        , pending := Pending.main } := by
  simp only [fire]
  split
  · rfl
  · next hcond => exact absurd ⟨trivial, hlt⟩ hcond

/-- Firing a main tick in the paused-full branch (line 165-166): the
state is untouched and the nested 1800ms pause timeout becomes pending. -/
theorem fire_full (rs : List (List Char)) (t : List Char) (ri ci : Nat)
    (heq : ci = (rs.getD ri []).length) :
    fire rs { st := { typed := t, roleIdx := ri, charIdx := ci, deleting := false }
            , pending := Pending.main }
      = { st := { typed := t, roleIdx := ri, charIdx := ci, deleting := false }
        , pending := Pending.pause } := by
  simp only [fire]
  split
  · next hcond => exact absurd hcond.2 (by omega)
  · split
    · rfl
    · next hcond => exact absurd ⟨trivial, heq⟩ hcond

/-- Firing a main tick in the deleting branch (line 167-169). -/
theorem fire_del (rs : List (List Char)) (t : List Char) (ri ci : Nat) (hpos : 0 < ci) :
    fire rs { st := { typed := t, roleIdx := ri, charIdx := ci, deleting := true }
            , pending := Pending.main }
      = { st := { typed := (rs.getD ri []).take (ci - 1), roleIdx := ri, charIdx := ci - 1
                , deleting := true }
        , pending := Pending.main } := by
  simp only [fire]
  split
  · next hcond => exact Bool.noConfusion hcond.1
  · split
    · next hcond => exact Bool.noConfusion hcond.1
    · split
      · rfl
      · next hcond => exact absurd ⟨trivial, hpos⟩ hcond

/-- Firing a main tick in the advance branch (line 170-172). -/
theorem fire_advance (rs : List (List Char)) (t : List Char) (ri : Nat) :
    fire rs { st := { typed := t, roleIdx := ri, charIdx := 0, deleting := true }
            , pending := Pending.main }
      = { st := { typed := t, roleIdx := (ri + 1) % rs.length, charIdx := 0, deleting := false }
        , pending := Pending.main } := by
  simp only [fire]
  split
  · next hcond => exact Bool.noConfusion hcond.1
  · split
    · next hcond => exact Bool.noConfusion hcond.1
    · split
      · next hcond => exact absurd hcond.2 (by omega)
      · rfl

/-- The typing phase: from `charIdx = j` (with `typed` the matching
slice) the next `k = length - j` main firings type the rest of the
current role one character per tick. -/
theorem typePhase (rs : List (List Char)) (i : Nat) :
    ∀ k j, j + k = (rs.getD i []).length →
      fireN rs k
          { st := { typed := (rs.getD i []).take j, roleIdx := i, charIdx := j
                  , deleting := false }
          , pending := Pending.main }
        = { st := { typed := rs.getD i [], roleIdx := i
                  , charIdx := (rs.getD i []).length, deleting := false }
          , pending := Pending.main } := by
  intro k
  induction k with
  | zero =>
      intro j hj
      have hj0 : j = (rs.getD i []).length := by omega
      subst hj0
      simp [fireN, List.take_length]
  | succ k ih =>
      intro j hj
      have hjlt : j < (rs.getD i []).length := by omega
      simp only [fireN]
      rw [fire_type rs ((rs.getD i []).take j) i j hjlt]
      exact ih (j + 1) (by omega)

/-- The deleting phase: from `charIdx = k` the next `k` main firings
delete one character per tick down to the empty display. -/
theorem deletePhase (rs : List (List Char)) (i : Nat) :
    ∀ k, fireN rs k
          { st := { typed := (rs.getD i []).take k, roleIdx := i, charIdx := k
                  , deleting := true }
          , pending := Pending.main }
        = { st := { typed := [], roleIdx := i, charIdx := 0, deleting := true }
          , pending := Pending.main } := by
  intro k
  induction k with
  | zero => simp [fireN]
  | succ k ih =>
      simp only [fireN]
      rw [fire_del rs ((rs.getD i []).take (k + 1)) i (k + 1) (by omega)]
      exact ih

/-- The invariant holds at mount. -/
theorem inv_initTW (rs : List (List Char)) : Inv rs initTW := by
  constructor
  · simp [Inv, initTW]
  · simp [Inv, initTW]

/-- Every timer firing preserves the invariant. -/
theorem inv_fire (rs : List (List Char)) (c : Config) (h : Inv rs c) : Inv rs (fire rs c) := by
  obtain ⟨h1, h2⟩ := h
  obtain ⟨⟨t, ri, ci, del⟩, p⟩ := c
  have h1a : t = (rs.getD ri []).take ci := h1
  have h2a : ci ≤ (rs.getD ri []).length := h2
  cases p with
  | pause => exact ⟨h1a, h2a⟩
  | main =>
      cases del with
      | false =>
          rcases Nat.lt_or_ge ci (rs.getD ri []).length with hlt | hge
          · rw [fire_type rs t ri ci hlt]
            exact ⟨rfl, hlt⟩
          · have heq : ci = (rs.getD ri []).length := by omega
            rw [fire_full rs t ri ci heq]
            exact ⟨h1a, h2a⟩
      | true =>
          rcases Nat.eq_zero_or_pos ci with hz | hpos
          · subst hz
            rw [fire_advance rs t ri]
            constructor
            · simpa using h1a
            · simp
          · rw [fire_del rs t ri ci hpos]
            refine ⟨rfl, ?_⟩
            show ci - 1 ≤ (rs.getD ri []).length
            omega

/-- The invariant holds along every run. -/
theorem invN (rs : List (List Char)) : ∀ (n : Nat) (c : Config), Inv rs c → Inv rs (fireN rs n c) := by
  intro n
  induction n with
  | zero => intro c h; exact h
  | succ n ih => intro c h; exact ih (fire rs c) (inv_fire rs c h)

/-! ## Claim theorems: typewriter -/

/-- C1: at every tick of the typewriter, under any non-empty role list,
the displayed text is exactly the length-`charIdx` slice of the current
role — never a non-slice substring. -/
theorem typewriter_displayed_text_invariant (rs : List (List Char)) (h : 0 < rs.length)
    (n : Nat) :
    (fireN rs n initTW).st.typed
      = (rs.getD (fireN rs n initTW).st.roleIdx []).take (fireN rs n initTW).st.charIdx :=
  (invN rs n initTW (inv_initTW rs)).1

/-- Witness for C1 at the application's role list after five firings. -/
theorem typewriter_displayed_text_invariant_witness :
    0 < roles.length
    ∧ (fireN roles 5 initTW).st.typed
        = (roles.getD (fireN roles 5 initTW).st.roleIdx []).take (fireN roles 5 initTW).st.charIdx :=
  ⟨by decide, typewriter_displayed_text_invariant roles (by decide) 5⟩

/-- C4: from any starting role index, one full type, pause, delete,
advance cycle — `2·len + 3` timer firings — advances the role index by
exactly one modulo the list length and returns `charIdx` to 0 with
`deleting` false, so the cycle repeats indefinitely. -/
theorem typewriter_cycle_advances (rs : List (List Char)) (i : Nat)
    (h : 0 < rs.length) (hi : i < rs.length) :
    fireN rs (2 * (rs.getD i []).length + 3)
        { st := { typed := [], roleIdx := i, charIdx := 0, deleting := false }
        , pending := Pending.main }
      = { st := { typed := [], roleIdx := (i + 1) % rs.length, charIdx := 0, deleting := false }
        , pending := Pending.main } := by
  have t1 : fireN rs (rs.getD i []).length
        { st := { typed := [], roleIdx := i, charIdx := 0, deleting := false }
        , pending := Pending.main }
      = { st := { typed := rs.getD i [], roleIdx := i
                , charIdx := (rs.getD i []).length, deleting := false }
        , pending := Pending.main } := by
    have := typePhase rs i (rs.getD i []).length 0 (by omega)
    simpa using this
  have t2 : fireN rs 1
        { st := { typed := rs.getD i [], roleIdx := i
                , charIdx := (rs.getD i []).length, deleting := false }
        , pending := Pending.main }
      = { st := { typed := rs.getD i [], roleIdx := i
                , charIdx := (rs.getD i []).length, deleting := false }
        , pending := Pending.pause } := by
    rw [fireN_one, fire_full rs (rs.getD i []) i (rs.getD i []).length rfl]
  have t3 : fireN rs 1
        { st := { typed := rs.getD i [], roleIdx := i
                , charIdx := (rs.getD i []).length, deleting := false }
        , pending := Pending.pause }
      = { st := { typed := rs.getD i [], roleIdx := i
                , charIdx := (rs.getD i []).length, deleting := true }
        , pending := Pending.main } := rfl
  have t4 : fireN rs (rs.getD i []).length
        { st := { typed := rs.getD i [], roleIdx := i
                , charIdx := (rs.getD i []).length, deleting := true }
        , pending := Pending.main }
      = { st := { typed := [], roleIdx := i, charIdx := 0, deleting := true }
        , pending := Pending.main } := by
    have := deletePhase rs i (rs.getD i []).length
    rwa [List.take_length] at this
  have t5 : fireN rs 1
        { st := { typed := [], roleIdx := i, charIdx := 0, deleting := true }
        , pending := Pending.main }
      = { st := { typed := [], roleIdx := (i + 1) % rs.length, charIdx := 0, deleting := false }
        , pending := Pending.main } := by
    rw [fireN_one, fire_advance rs [] i]
  have hsplit : 2 * (rs.getD i []).length + 3
      = 1 + ((rs.getD i []).length + (1 + (1 + (rs.getD i []).length))) := by omega
  rw [hsplit, fireN_shift, fireN_shift, fireN_shift, fireN_shift, t1, t2, t3, t4, t5]

/-- Witness for C4: one cycle on the application's role list advances
role index 0 to 1, and on a singleton list cycles back to the same role. -/
theorem typewriter_cycle_advances_witness :
    (0 < roles.length ∧ 0 < roles.length
      ∧ fireN roles (2 * (roles.getD 0 []).length + 3)
          { st := { typed := [], roleIdx := 0, charIdx := 0, deleting := false }
          , pending := Pending.main }
        = { st := { typed := [], roleIdx := (0 + 1) % roles.length, charIdx := 0
                  , deleting := false }
          , pending := Pending.main })
    ∧ (0 < ([ "A".toList ] : List (List Char)).length
      ∧ fireN [ "A".toList ] (2 * (([ "A".toList ] : List (List Char)).getD 0 []).length + 3)
          { st := { typed := [], roleIdx := 0, charIdx := 0, deleting := false }
          , pending := Pending.main }
        = { st := { typed := [], roleIdx := (0 + 1) % ([ "A".toList ] : List (List Char)).length
                  , charIdx := 0, deleting := false }
          , pending := Pending.main }) :=
  ⟨⟨by decide, by decide, typewriter_cycle_advances roles 0 (by decide) (by decide)⟩,
   ⟨by decide, typewriter_cycle_advances [ "A".toList ] 0 (by decide) (by decide)⟩⟩

/-- C5: when the current role is the empty string the controller skips
the typing phase (`charIdx` stays 0 throughout), advances to the next
role after exactly three timer firings, every scheduled delay is
positive, and the total simulated time to progress is the bounded
1960ms (100 + 1800 + 60) — no zero-duration loop and no stall. -/
theorem typewriter_empty_role_progress (rs : List (List Char)) (i k : Nat)
    (h : 0 < rs.length) (he : rs.getD i [] = []) (hk : k ≤ 3) :
    fireN rs 3
        { st := { typed := [], roleIdx := i, charIdx := 0, deleting := false }
        , pending := Pending.main }
      = { st := { typed := [], roleIdx := (i + 1) % rs.length, charIdx := 0, deleting := false }
        , pending := Pending.main }
    ∧ (fireN rs k
        { st := { typed := [], roleIdx := i, charIdx := 0, deleting := false }
        , pending := Pending.main }).st.charIdx = 0
    ∧ elapsedN rs 3
        { st := { typed := [], roleIdx := i, charIdx := 0, deleting := false }
        , pending := Pending.main } = 1960
    ∧ 0 < delayOf (fireN rs k
        { st := { typed := [], roleIdx := i, charIdx := 0, deleting := false }
        , pending := Pending.main }) := by
  have f1 : fire rs
        { st := { typed := [], roleIdx := i, charIdx := 0, deleting := false }
        , pending := Pending.main }
      = { st := { typed := [], roleIdx := i, charIdx := 0, deleting := false }
        , pending := Pending.pause } :=
    fire_full rs [] i 0 (by rw [he]; rfl)
  have f2 : fire rs
        { st := { typed := [], roleIdx := i, charIdx := 0, deleting := false }
        , pending := Pending.pause }
      = { st := { typed := [], roleIdx := i, charIdx := 0, deleting := true }
        , pending := Pending.main } := rfl
  have f3 : fire rs
        { st := { typed := [], roleIdx := i, charIdx := 0, deleting := true }
        , pending := Pending.main }
      = { st := { typed := [], roleIdx := (i + 1) % rs.length, charIdx := 0, deleting := false }
        , pending := Pending.main } :=
    fire_advance rs [] i
  refine ⟨?_, ?_, ?_, ?_⟩
  · have e3 : fireN rs 3
        { st := { typed := [], roleIdx := i, charIdx := 0, deleting := false }
        , pending := Pending.main }
        = fire rs (fire rs (fire rs
            { st := { typed := [], roleIdx := i, charIdx := 0, deleting := false }
            , pending := Pending.main })) := rfl
    rw [e3, f1, f2, f3]
  · interval_cases k
    · rfl
    · rw [fireN_one, f1]
    · have : fireN rs 2
          { st := { typed := [], roleIdx := i, charIdx := 0, deleting := false }
          , pending := Pending.main }
          = fire rs (fire rs
              { st := { typed := [], roleIdx := i, charIdx := 0, deleting := false }
              , pending := Pending.main }) := rfl
      rw [this, f1, f2]
    · have : fireN rs 3
          { st := { typed := [], roleIdx := i, charIdx := 0, deleting := false }
          , pending := Pending.main }
          = fire rs (fire rs (fire rs
              { st := { typed := [], roleIdx := i, charIdx := 0, deleting := false }
              , pending := Pending.main })) := rfl
      rw [this, f1, f2, f3]
  · have e3 : elapsedN rs 3
        { st := { typed := [], roleIdx := i, charIdx := 0, deleting := false }
        , pending := Pending.main }
        = delayOf { st := { typed := [], roleIdx := i, charIdx := 0, deleting := false }
                  , pending := Pending.main }
          + (delayOf (fire rs
              { st := { typed := [], roleIdx := i, charIdx := 0, deleting := false }
              , pending := Pending.main })
            + (delayOf (fire rs (fire rs
                { st := { typed := [], roleIdx := i, charIdx := 0, deleting := false }
                , pending := Pending.main })) + 0)) := rfl
    rw [e3, f1, f2]
    simp [delayOf]
  · interval_cases k
    · simp [fireN, delayOf]
    · rw [fireN_one, f1]; simp [delayOf]
    · have : fireN rs 2
          { st := { typed := [], roleIdx := i, charIdx := 0, deleting := false }
          , pending := Pending.main }
          = fire rs (fire rs
              { st := { typed := [], roleIdx := i, charIdx := 0, deleting := false }
              , pending := Pending.main }) := rfl
      rw [this, f1, f2]; simp [delayOf]
    · have : fireN rs 3
          { st := { typed := [], roleIdx := i, charIdx := 0, deleting := false }
          , pending := Pending.main }
          = fire rs (fire rs (fire rs
              { st := { typed := [], roleIdx := i, charIdx := 0, deleting := false }
              , pending := Pending.main })) := rfl
      rw [this, f1, f2, f3]; simp [delayOf]

/-- Witness for C5 on `roles = [""]`. -/
theorem typewriter_empty_role_progress_witness :
    (0 < ([ [] ] : List (List Char)).length
      ∧ ([ [] ] : List (List Char)).getD 0 [] = []
      ∧ 3 ≤ 3)
    ∧ (fireN [ [] ] 3
          { st := { typed := [], roleIdx := 0, charIdx := 0, deleting := false }
          , pending := Pending.main }
        = { st := { typed := [], roleIdx := (0 + 1) % ([ [] ] : List (List Char)).length
                  , charIdx := 0, deleting := false }
          , pending := Pending.main }
      ∧ (fireN [ [] ] 3
          { st := { typed := [], roleIdx := 0, charIdx := 0, deleting := false }
          , pending := Pending.main }).st.charIdx = 0
      ∧ elapsedN [ [] ] 3
          { st := { typed := [], roleIdx := 0, charIdx := 0, deleting := false }
          , pending := Pending.main } = 1960
      ∧ 0 < delayOf (fireN [ [] ] 3
          { st := { typed := [], roleIdx := 0, charIdx := 0, deleting := false }
          , pending := Pending.main })) :=
  ⟨⟨by decide, rfl, by decide⟩,
   typewriter_empty_role_progress [ [] ] 0 3 (by decide) rfl (by decide)⟩

/-- C3 (code bug): the effect cleanup clears only the outer timeout
handle; the nested 1800ms pause timeout scheduled in the paused-full
branch is not cleared.  Concretely, after the 17 firings that type
"Business Analyst" and reach the paused-full branch, the only live
timer is the pause timeout, it survives teardown, and firing it after
teardown still mutates the state (`deleting` flips from false to
true). -/
theorem typewriter_teardown_misses_pause_timer :
    (fireN roles 17 initTW).pending = Pending.pause
    ∧ cleanupClears Pending.main = true
    ∧ cleanupClears Pending.pause = false
    ∧ survivesTeardown (fireN roles 17 initTW) = some Pending.pause
    ∧ (fireN roles 17 initTW).st.deleting = false
    ∧ (fire roles (fireN roles 17 initTW)).st.deleting = true := by
  refine ⟨by decide, rfl, rfl, by decide, by decide, by decide⟩

/-- C6 counterexample: on entry to the paused-full state (after the 16
firings that finish typing "Business Analyst") the pending timer is
still the outer 100ms tick, not an 1800ms one-shot; the 1800ms pause is
scheduled only by the next firing, so `deleting` becomes true 1900ms
after entry, not 1800ms. -/
theorem typewriter_pause_not_scheduled_on_entry :
    (fireN roles 16 initTW).st.deleting = false
    ∧ (fireN roles 16 initTW).st.charIdx
        = (roles.getD (fireN roles 16 initTW).st.roleIdx []).length
    ∧ (fireN roles 16 initTW).pending = Pending.main
    ∧ delayOf (fireN roles 16 initTW) = 100
    ∧ ¬ delayOf (fireN roles 16 initTW) = 1800
    ∧ elapsedN roles 2 (fireN roles 16 initTW) = 1900
    ∧ (fireN roles 17 initTW).pending = Pending.pause
    ∧ delayOf (fireN roles 17 initTW) = 1800
    ∧ (fireN roles 18 initTW).st.deleting = true := by
  refine ⟨by decide, by decide, by decide, by decide, by decide, by decide, by decide,
    by decide, by decide⟩

/-- C6 (amended): a typing tick fires after 100ms and appends exactly
one character; a deleting tick fires after 60ms and removes exactly one
character; in the paused-full state the next 100ms tick leaves the
state unchanged and schedules the one-shot 1800ms pause timer, and when
that fires, `deleting` becomes true with no character change. -/
theorem typewriter_tick_timing (rs : List (List Char)) (c : Config) :
    (c.pending = Pending.main → c.st.deleting = false →
      c.st.charIdx < (rs.getD c.st.roleIdx []).length →
        delayOf c = 100
        ∧ (fire rs c).st.charIdx = c.st.charIdx + 1
        ∧ (fire rs c).st.typed = (rs.getD c.st.roleIdx []).take (c.st.charIdx + 1)
        ∧ (fire rs c).st.roleIdx = c.st.roleIdx
        ∧ (fire rs c).st.deleting = false)
    ∧ (c.pending = Pending.main → c.st.deleting = true → 0 < c.st.charIdx →
        delayOf c = 60
        ∧ (fire rs c).st.charIdx = c.st.charIdx - 1
        ∧ (fire rs c).st.typed = (rs.getD c.st.roleIdx []).take (c.st.charIdx - 1)
        ∧ (fire rs c).st.roleIdx = c.st.roleIdx
        ∧ (fire rs c).st.deleting = true)
    ∧ (c.pending = Pending.main → c.st.deleting = false →
        c.st.charIdx = (rs.getD c.st.roleIdx []).length →
        delayOf c = 100 ∧ (fire rs c).st = c.st ∧ (fire rs c).pending = Pending.pause)
    ∧ (c.pending = Pending.pause →
        delayOf c = 1800
        ∧ (fire rs c).st.deleting = true
        ∧ (fire rs c).st.charIdx = c.st.charIdx
        ∧ (fire rs c).st.typed = c.st.typed
        ∧ (fire rs c).st.roleIdx = c.st.roleIdx
        ∧ (fire rs c).pending = Pending.main) := by
  obtain ⟨⟨t, ri, ci, del⟩, p⟩ := c
  refine ⟨?_, ?_, ?_, ?_⟩
  · intro hp hdel hlt
    have hp2 : p = Pending.main := hp
    subst hp2
    have hdel2 : del = false := hdel
    subst hdel2
    have hlt2 : ci < (rs.getD ri []).length := hlt
    rw [fire_type rs t ri ci hlt2]
    exact ⟨rfl, rfl, rfl, rfl, rfl⟩
  · intro hp hdel hpos
    have hp2 : p = Pending.main := hp
    subst hp2
    have hdel2 : del = true := hdel
    subst hdel2
    have hpos2 : 0 < ci := hpos
    rw [fire_del rs t ri ci hpos2]
    exact ⟨rfl, rfl, rfl, rfl, rfl⟩
  · intro hp hdel heq
    have hp2 : p = Pending.main := hp
    subst hp2
    have hdel2 : del = false := hdel
    subst hdel2
    have heq2 : ci = (rs.getD ri []).length := heq
    rw [fire_full rs t ri ci heq2]
    exact ⟨rfl, rfl, rfl⟩
  · intro hp
    have hp2 : p = Pending.pause := hp
    subst hp2
    rw [fire_pause_step rs t ri ci del]
    exact ⟨rfl, rfl, rfl, rfl, rfl, rfl⟩

/-- Witness for C6 (amended): the first typing tick at mount, and a
pause-timer firing. -/
theorem typewriter_tick_timing_witness :
    (initTW.pending = Pending.main ∧ initTW.st.deleting = false
      ∧ initTW.st.charIdx < (roles.getD initTW.st.roleIdx []).length
      ∧ (delayOf initTW = 100
          ∧ (fire roles initTW).st.charIdx = initTW.st.charIdx + 1
          ∧ (fire roles initTW).st.typed
              = (roles.getD initTW.st.roleIdx []).take (initTW.st.charIdx + 1)
          ∧ (fire roles initTW).st.roleIdx = initTW.st.roleIdx
          ∧ (fire roles initTW).st.deleting = false))
    ∧ (delayOf { st := initTW.st, pending := Pending.pause } = 1800
        ∧ (fire roles { st := initTW.st, pending := Pending.pause }).st.deleting = true
        ∧ (fire roles { st := initTW.st, pending := Pending.pause }).st.charIdx
            = ({ st := initTW.st, pending := Pending.pause } : Config).st.charIdx
        ∧ (fire roles { st := initTW.st, pending := Pending.pause }).st.typed
            = ({ st := initTW.st, pending := Pending.pause } : Config).st.typed
        ∧ (fire roles { st := initTW.st, pending := Pending.pause }).st.roleIdx
            = ({ st := initTW.st, pending := Pending.pause } : Config).st.roleIdx
        ∧ (fire roles { st := initTW.st, pending := Pending.pause }).pending = Pending.main) :=
  ⟨⟨rfl, rfl, by decide, (typewriter_tick_timing roles initTW).1 rfl rfl (by decide)⟩,
   (typewriter_tick_timing roles { st := initTW.st, pending := Pending.pause }).2.2.2 rfl⟩

end Portfolio
